import Mathlib

/-!
# GreenProof core — a shallow embedding in Lean 4

This file embeds the trust-substrate core of the `greenproof` repository
(`src/core.py`, `src/receipt.py`, `src/double_count_prevent.py`,
`src/detect.py`, and the proof-chain interface of `src/prove.py`) and
settles the frozen claims C1–C10 about it.

Conventions of the embedding:
* Python byte strings become `List Nat` (each element `< 256`), machine
  words become `Nat` with explicit `% 2^w` where overflow matters.
* Python dicts become association lists `List (String × Json)` in
  insertion order; `json.dumps(..., sort_keys=True)` becomes a canonical
  serializer over sorted keys.
* Stateful code (the JSONL receipt ledger, the module-level credit
  registry) becomes explicit state passing; `datetime.now()` becomes an
  explicit `now : String` argument.
* Code that can raise returns `Except` / `Option`; a `.error` / `none`
  result models a raised Python exception.
-/

namespace GreenProof

/-! ## Bytes and hex -/

/-- `2 ^ 32`, the modulus of 32-bit machine arithmetic. -/
def M32 : Nat := 4294967296

/-- `2 ^ 64`, the modulus of 64-bit machine arithmetic. -/
def M64 : Nat := 18446744073709551616

/-- 32-bit right rotation. -/
def rotr32 (x k : Nat) : Nat := ((x >>> k) ||| (x <<< (32 - k))) % M32

/-- 64-bit right rotation. -/
def rotr64 (x k : Nat) : Nat := ((x >>> k) ||| (x <<< (64 - k))) % M64

/-- Big-endian byte serialization of `v` into `n` bytes. -/
def toBytesBE : Nat → Nat → List Nat
  | 0, _ => []
  | n + 1, v => toBytesBE n (v / 256) ++ [v % 256]

/-- Little-endian byte serialization of `v` into `n` bytes. -/
def toBytesLE : Nat → Nat → List Nat
  | 0, _ => []
  | n + 1, v => v % 256 :: toBytesLE n (v / 256)

/-- Lower-case hexadecimal digit. -/
def hexDigit (n : Nat) : Char :=
  if n < 10 then Char.ofNat (48 + n) else Char.ofNat (87 + n)

/-- Lower-case hex string of a byte list, two digits per byte. -/
def bytesToHex (bs : List Nat) : String :=
  String.mk (bs.flatMap (fun b => [hexDigit (b / 16 % 16), hexDigit (b % 16)]))

/-- UTF-8 encoding of one character (as in Python's `str.encode("utf-8")`). -/
def utf8Char (c : Char) : List Nat :=
  let n := c.toNat
  if n < 128 then [n]
  else if n < 2048 then [192 ||| (n >>> 6), 128 ||| (n &&& 63)]
  else if n < 65536 then
    [224 ||| (n >>> 12), 128 ||| ((n >>> 6) &&& 63), 128 ||| (n &&& 63)]
  else
    [240 ||| (n >>> 18), 128 ||| ((n >>> 12) &&& 63),
     128 ||| ((n >>> 6) &&& 63), 128 ||| (n &&& 63)]

/-- UTF-8 encoding of a string. -/
def utf8Bytes (s : String) : List Nat := s.data.flatMap utf8Char

/-- Split a list into chunks of `n` elements (the fuel argument bounds the
number of chunks; callers pass the list length, which always suffices). -/
def chunksAux (n : Nat) : Nat → List α → List (List α)
  | 0, _ => []
  | _, [] => []
  | fuel + 1, l => l.take n :: chunksAux n fuel (l.drop n)

def chunks (n : Nat) (l : List α) : List (List α) := chunksAux n l.length l

/-! ## SHA-256 (`hashlib.sha256`) -/

/-- The 64 SHA-256 round constants. -/
def shaK : List Nat :=
  [1116352408, 1899447441, 3049323471, 3921009573, 961987163, 1508970993,
   2453635748, 2870763221, 3624381080, 310598401, 607225278, 1426881987,
   1925078388, 2162078206, 2614888103, 3248222580, 3835390401, 4022224774,
   264347078, 604807628, 770255983, 1249150122, 1555081692, 1996064986,
   2554220882, 2821834349, 2952996808, 3210313671, 3336571891, 3584528711,
   113926993, 338241895, 666307205, 773529912, 1294757372, 1396182291,
   1695183700, 1986661051, 2177026350, 2456956037, 2730485921, 2820302411,
   3259730800, 3345764771, 3516065817, 3600352804, 4094571909, 275423344,
   430227734, 506948616, 659060556, 883997877, 958139571, 1322822218,
   1537002063, 1747873779, 1955562222, 2024104815, 2227730452, 2361852424,
   2428436474, 2756734187, 3204031479, 3329325298]

/-- The SHA-256 initial hash state. -/
def shaH0 : List Nat :=
  [1779033703, 3144134277, 1013904242, 2773480762,
   1359893119, 2600822924, 528734635, 1541459225]

/-- SHA-256 message padding: `0x80`, zeros, then the 64-bit big-endian
bit length, to a multiple of 64 bytes. -/
def sha256pad (msg : List Nat) : List Nat :=
  let L := msg.length
  let zeros := (64 - ((L + 9) % 64)) % 64
  msg ++ [128] ++ List.replicate zeros 0 ++ toBytesBE 8 (8 * L)

/-- Big-endian 32-bit words from a byte list. -/
def bytesToWords32 : List Nat → List Nat
  | b0 :: b1 :: b2 :: b3 :: rest =>
      (((b0 * 256 + b1) * 256 + b2) * 256 + b3) :: bytesToWords32 rest
  | _ => []

/-- Extend the 16 message words to 64 (message schedule). -/
def shaExtend : Nat → Array Nat → Array Nat
  | 0, w => w
  | n + 1, w =>
    let i := w.size
    let x15 := w.getD (i - 15) 0
    let x2 := w.getD (i - 2) 0
    let s0 := rotr32 x15 7 ^^^ rotr32 x15 18 ^^^ (x15 >>> 3)
    let s1 := rotr32 x2 17 ^^^ rotr32 x2 19 ^^^ (x2 >>> 10)
    shaExtend n (w.push ((w.getD (i - 16) 0 + s0 + w.getD (i - 7) 0 + s1) % M32))

/-- The 64-round SHA-256 compression loop over `(kᵢ, wᵢ)` pairs. -/
def shaRounds :
    List (Nat × Nat) →
    Nat × Nat × Nat × Nat × Nat × Nat × Nat × Nat →
    Nat × Nat × Nat × Nat × Nat × Nat × Nat × Nat
  | [], st => st
  | (ki, wi) :: rest, (a, b, c, d, e, f, g, h) =>
    let S1 := rotr32 e 6 ^^^ rotr32 e 11 ^^^ rotr32 e 25
    let ch := (e &&& f) ^^^ ((e ^^^ (M32 - 1)) &&& g)
    let t1 := (h + S1 + ch + ki + wi) % M32
    let S0 := rotr32 a 2 ^^^ rotr32 a 13 ^^^ rotr32 a 22
    let mj := (a &&& b) ^^^ (a &&& c) ^^^ (b &&& c)
    let t2 := (S0 + mj) % M32
    shaRounds rest ((t1 + t2) % M32, a, b, c, (d + t1) % M32, e, f, g)

/-- Process one 64-byte block into the running 8-word state. -/
def shaBlock (H : List Nat) (block : List Nat) : List Nat :=
  let w := shaExtend 48 (bytesToWords32 block).toArray
  match H with
  | [h0, h1, h2, h3, h4, h5, h6, h7] =>
    let (a, b, c, d, e, f, g, h) :=
      shaRounds (shaK.zip w.toList) (h0, h1, h2, h3, h4, h5, h6, h7)
    [(h0 + a) % M32, (h1 + b) % M32, (h2 + c) % M32, (h3 + d) % M32,
     (h4 + e) % M32, (h5 + f) % M32, (h6 + g) % M32, (h7 + h) % M32]
  | _ => H

/-- SHA-256 digest (32 bytes) of a byte list. -/
def sha256 (msg : List Nat) : List Nat :=
  let H := (chunks 64 (sha256pad msg)).foldl shaBlock shaH0
  H.flatMap (toBytesBE 4)

/-! ## BLAKE2b-256 (`hashlib.blake2b(data, digest_size=32)`) -/

/-- The BLAKE2b initialization vector. -/
def blakeIV : List Nat :=
  [7640891576956012808, 13503953896175478587, 4354685564936845355,
   11912009170470909681, 5840696475078001361, 11170449401992604703,
   2270897969802886507, 6620516959819538809]

/-- The BLAKE2b message permutation table (10 rows). -/
def blakeSigma : List (List Nat) :=
  [[0, 1, 2, 3, 4, 5, 6, 7, 8, 9, 10, 11, 12, 13, 14, 15],
   [14, 10, 4, 8, 9, 15, 13, 6, 1, 12, 0, 2, 11, 7, 5, 3],
   [11, 8, 12, 0, 5, 2, 15, 13, 10, 14, 3, 6, 7, 1, 9, 4],
   [7, 9, 3, 1, 13, 12, 11, 14, 2, 6, 5, 10, 4, 0, 15, 8],
   [9, 0, 5, 7, 2, 4, 10, 15, 14, 1, 11, 12, 6, 8, 3, 13],
   [2, 12, 6, 10, 0, 11, 8, 3, 4, 13, 7, 5, 15, 14, 1, 9],
   [12, 5, 1, 15, 14, 13, 4, 10, 0, 7, 6, 3, 9, 2, 8, 11],
   [13, 11, 7, 14, 12, 1, 3, 9, 5, 0, 15, 4, 8, 6, 2, 10],
   [6, 15, 14, 9, 11, 3, 0, 8, 12, 2, 13, 7, 1, 4, 10, 5],
   [10, 2, 8, 4, 7, 6, 1, 5, 15, 11, 9, 14, 3, 12, 13, 0]]

/-- Little-endian 64-bit words from a byte list. -/
def bytesToWords64 : List Nat → List Nat
  | b0 :: b1 :: b2 :: b3 :: b4 :: b5 :: b6 :: b7 :: rest =>
      (b0 + 256 * (b1 + 256 * (b2 + 256 * (b3 + 256 *
        (b4 + 256 * (b5 + 256 * (b6 + 256 * b7)))))))
        :: bytesToWords64 rest
  | _ => []

/-- The BLAKE2b mixing function G on the 16-word work vector. -/
def blakeG (v : Array Nat) (a b c d x y : Nat) : Array Nat :=
  let va := (v.getD a 0 + v.getD b 0 + x) % M64
  let vd := rotr64 (v.getD d 0 ^^^ va) 32
  let vc := (v.getD c 0 + vd) % M64
  let vb := rotr64 (v.getD b 0 ^^^ vc) 24
  let va := (va + vb + y) % M64
  let vd := rotr64 (vd ^^^ va) 16
  let vc := (vc + vd) % M64
  let vb := rotr64 (vb ^^^ vc) 63
  ((((v.setD a va).setD b vb).setD c vc).setD d vd)

/-- One BLAKE2b round: eight G applications under a sigma row. -/
def blakeRound (m : Array Nat) (v : Array Nat) (s : List Nat) : Array Nat :=
  let mi := fun (j : Nat) => m.getD (s.getD j 0) 0
  let v := blakeG v 0 4 8 12 (mi 0) (mi 1)
  let v := blakeG v 1 5 9 13 (mi 2) (mi 3)
  let v := blakeG v 2 6 10 14 (mi 4) (mi 5)
  let v := blakeG v 3 7 11 15 (mi 6) (mi 7)
  let v := blakeG v 0 5 10 15 (mi 8) (mi 9)
  let v := blakeG v 1 6 11 12 (mi 10) (mi 11)
  let v := blakeG v 2 7 8 13 (mi 12) (mi 13)
  blakeG v 3 4 9 14 (mi 14) (mi 15)

/-- The BLAKE2b compression function: `h` is the 8-word state, `block` a
128-byte block, `t` the byte offset counter, `f` the final-block flag. -/
def blakeCompress (h : List Nat) (block : List Nat) (t : Nat) (f : Bool) :
    List Nat :=
  let m := (bytesToWords64 block).toArray
  let v := (h ++ blakeIV).toArray
  let v := v.setD 12 (v.getD 12 0 ^^^ (t % M64))
  let v := v.setD 13 (v.getD 13 0 ^^^ (t / M64))
  let v := if f then v.setD 14 (v.getD 14 0 ^^^ (M64 - 1)) else v
  let v := (List.range 12).foldl
    (fun v i => blakeRound m v (blakeSigma.getD (i % 10) [])) v
  (List.range 8).map (fun i => h.getD i 0 ^^^ v.getD i 0 ^^^ v.getD (i + 8) 0)

/-- Sequential block processing: every block but the last uses the running
byte count with `f = false`; the last uses the total length with `f = true`. -/
def blakeLoop (ll : Nat) : List Nat → Nat → List (List Nat) → List Nat
  | h, _, [] => h
  | h, _, [b] => blakeCompress h (b ++ List.replicate (128 - b.length) 0) ll true
  | h, done, b :: rest => blakeLoop ll (blakeCompress h b (done + 128) false) (done + 128) rest

/-- BLAKE2b-256 digest (32 bytes, unkeyed) of a byte list. -/
def blake2b256 (msg : List Nat) : List Nat :=
  let h0 := blakeIV.getD 0 0 ^^^ 16842784
  let h := h0 :: blakeIV.drop 1
  let blocks := if msg.length = 0 then [([] : List Nat)] else chunks 128 msg
  let h := blakeLoop msg.length h 0 blocks
  (h.flatMap (toBytesLE 8)).take 32

/-! ## `dual_hash` (src/core.py) -/

/-- `dual_hash(data)`: `"SHA256:<sha256 hex>:BLAKE3:<blake2b-256 hex>"`.
The source falls back from BLAKE3 to `hashlib.blake2b(digest_size=32)`.
Strings are UTF-8 encoded first. -/
def dual_hash (s : String) : String :=
  let data := utf8Bytes s
  "SHA256:" ++ bytesToHex (sha256 data) ++ ":BLAKE3:" ++ bytesToHex (blake2b256 data)

/-! ## JSON values and Python dicts

Python dicts are modelled as association lists in insertion order
(`Dict`); `json.dumps` becomes a canonical serializer. -/

inductive Json where
  | null : Json
  | bool (b : Bool) : Json
  | num (n : Int) : Json
  | str (s : String) : Json
  | arr (xs : List Json) : Json
  | obj (kvs : List (String × Json)) : Json
deriving Repr, Inhabited

/-- A Python dict with `Json` values, in insertion order. -/
abbrev Dict := List (String × Json)

/-- Python truthiness (`if not x`) of a JSON value. -/
def jsonTruthy : Json → Bool
  | .null => false
  | .bool b => b
  | .num n => n != 0
  | .str s => s != ""
  | .arr xs => !xs.isEmpty
  | .obj kvs => !kvs.isEmpty

/-- `d[k] = v` on a Python dict: replace in place if the key exists,
append at the end otherwise. -/
def dictSet (d : Dict) (k : String) (v : Json) : Dict :=
  match d with
  | [] => [(k, v)]
  | (k', v') :: rest => if k' = k then (k, v) :: rest else (k', v') :: dictSet rest k v

/-- Four lower-case hex digits of `n < 2^16` (for `\uXXXX` escapes). -/
def hex4 (n : Nat) : List Char :=
  [hexDigit (n / 4096 % 16), hexDigit (n / 256 % 16),
   hexDigit (n / 16 % 16), hexDigit (n % 16)]

/-- Escape one character as Python's `json.dumps` does (default
`ensure_ascii=True`): short escapes for the usual control characters,
`\uXXXX` (with surrogate pairs) outside printable ASCII. -/
def jsonEscapeChar (c : Char) : List Char :=
  let n := c.toNat
  if n = 34 then ['\\', '"']
  else if n = 92 then ['\\', '\\']
  else if n = 8 then ['\\', 'b']
  else if n = 9 then ['\\', 't']
  else if n = 10 then ['\\', 'n']
  else if n = 12 then ['\\', 'f']
  else if n = 13 then ['\\', 'r']
  else if 32 ≤ n ∧ n ≤ 126 then [c]
  else if n < 65536 then '\\' :: 'u' :: hex4 n
  else
    let m := n - 65536
    ('\\' :: 'u' :: hex4 (55296 + m / 1024)) ++ ('\\' :: 'u' :: hex4 (56320 + m % 1024))

/-- A JSON string literal with quotes, as `json.dumps` renders it. -/
def jsonQuote (s : String) : String :=
  "\"" ++ String.mk (s.data.flatMap jsonEscapeChar) ++ "\""

/-- Stable-insert a key-value pair into a key-sorted list (the keys of a
Python dict are distinct, so ties never matter). -/
def insertPair (p : String × α) : List (String × α) → List (String × α)
  | [] => [p]
  | q :: rest => if p.1 < q.1 then p :: q :: rest else q :: insertPair p rest

/-- Sort an association list by key (Python's `sorted` on dict keys). -/
def sortPairs (l : List (String × α)) : List (String × α) :=
  l.foldr insertPair []

/-- Comma-join already-serialized array items with Python's default `", "`
separator. -/
def joinItems : List String → String
  | [] => ""
  | [x] => x
  | x :: rest => x ++ ", " ++ joinItems rest

/-- Render already-serialized key/value pairs with Python's default
`": "` separator. -/
def renderPairs (l : List (String × String)) : List String :=
  l.map (fun p => jsonQuote p.1 ++ ": " ++ p.2)

mutual

/-- `json.dumps(j, sort_keys := sk)` with Python's default separators and
`ensure_ascii=True`. Objects serialize their values first, then sort the
(key, rendered-value) pairs when `sk` is set — which agrees with sorting
the keys first, since rendering is per-entry. -/
def Json.dumps (sk : Bool) : Json → String
  | .null => "null"
  | .bool b => if b then "true" else "false"
  | .num n => toString n
  | .str s => jsonQuote s
  | .arr xs => "[" ++ joinItems (Json.dumpsList sk xs) ++ "]"
  | .obj kvs =>
      let rendered := Json.dumpsPairs sk kvs
      "\x7b" ++ joinItems (renderPairs (if sk then sortPairs rendered else rendered)) ++ "\x7d"

def Json.dumpsList (sk : Bool) : List Json → List String
  | [] => []
  | x :: rest => Json.dumps sk x :: Json.dumpsList sk rest

def Json.dumpsPairs (sk : Bool) : List (String × Json) → List (String × String)
  | [] => []
  | (k, v) :: rest => (k, Json.dumps sk v) :: Json.dumpsPairs sk rest

end

/-! ## Merkle tree (src/core.py) -/

/-- One level-building step shared by `merkle_root` and `merkle_proof`:
duplicate the last element when the level has an odd count. -/
def padEven (w : List String) : List String :=
  if w.length % 2 = 1 then w ++ [w.getLastD ""] else w

/-- Pair adjacent hashes of an (even-length) level into their parents. -/
def combinePairs : List String → List String
  | a :: b :: rest => dual_hash (a ++ b) :: combinePairs rest
  | _ => []

/-- The `while len(working) > 1` loop of `merkle_root`. The fuel is the
initial length, which always bounds the number of iterations. -/
def rootAux : Nat → List String → String
  | 0, w => w.headD ""
  | fuel + 1, w =>
      if w.length ≤ 1 then w.headD ""
      else rootAux fuel (combinePairs (padEven w))

/-- `merkle_root(hashes)`: empty list hashes the empty string, a single
hash is returned unchanged, otherwise the tree is built level by level. -/
def merkle_root (hashes : List String) : String :=
  if hashes = [] then dual_hash ""
  else if hashes.length = 1 then hashes.headD ""
  else rootAux hashes.length hashes

/-- The proof-generation loop of `merkle_proof`: at each level record the
sibling and the direction, combine, halve the index, and re-pad. Returns
(path, directions, final working list). -/
def proofAux : Nat → List String → Nat → List String → List String →
    List String × List String × List String
  | 0, w, _, path, dirs => (path, dirs, w)
  | fuel + 1, w, i, path, dirs =>
      if w.length ≤ 1 then (path, dirs, w)
      else
        let sib := if i % 2 = 0 then i + 1 else i - 1
        let dir := if i % 2 = 0 then "right" else "left"
        let path := if sib < w.length then path ++ [w.getD sib ""] else path
        let next := combinePairs w
        let next :=
          if next.length % 2 = 1 ∧ 1 < next.length then next ++ [next.getLastD ""]
          else next
        proofAux fuel next (i / 2) path (dirs ++ [dir])

/-- `merkle_proof(hashes, index)`: an invalid sentinel for an empty list
or out-of-range index, otherwise the sibling path up the tree. The
result is the Python dict the function builds. -/
def merkle_proof (hashes : List String) (index : Nat) : Dict :=
  if hashes = [] ∨ hashes.length ≤ index then
    [("valid", .bool false), ("path", .arr []), ("directions", .arr [])]
  else
    let w0 := padEven hashes
    let (path, dirs, fin) := proofAux w0.length w0 index [] []
    [("valid", .bool true),
     ("leaf_hash", .str (hashes.getD index "")),
     ("path", .arr (path.map .str)),
     ("directions", .arr (dirs.map .str)),
     ("root", if fin.isEmpty then .null else .str (fin.headD ""))]

/-- The recombination loop of `verify_merkle_proof`. `none` models a
raised exception: a missing `directions` key (KeyError), an out-of-range
direction index (IndexError), or a non-string sibling / non-list
directions value (TypeError on `current + sibling`). -/
def verifyLoop : Nat → Dict → String → List Json → Option String
  | _, _, cur, [] => some cur
  | i, proof, cur, sib :: rest => do
      let dirsJ ← proof.lookup "directions"
      let dirs ← match dirsJ with | .arr xs => some xs | _ => none
      let dir ← dirs.get? i
      let sibStr ← match sib with | .str s => some s | _ => none
      let isRight := match dir with | .str s => s == "right" | _ => false
      let combined := if isRight then cur ++ sibStr else sibStr ++ cur
      verifyLoop (i + 1) proof (dual_hash combined) rest

/-- `verify_merkle_proof(leaf_hash, proof, root)`. A falsy `valid` entry
(or a missing one: `proof.get("valid")`) short-circuits to `false`;
otherwise the path is recombined and compared to `root`. `none` models a
raised exception on a malformed dict (Python indexes `proof["path"]` and
`proof["directions"][i]` unguarded). -/
def verify_merkle_proof (leaf_hash : String) (proof : Dict) (root : String) :
    Option Bool :=
  if !jsonTruthy ((proof.lookup "valid").getD .null) then some false
  else do
    let pathJ ← proof.lookup "path"
    let path ← match pathJ with | .arr xs => some xs | _ => none
    let fin ← verifyLoop 0 proof leaf_hash path
    some (decide (fin = root))

/-! ## Receipt ledger (src/core.py) and schemas (src/receipt.py) -/

def GREENPROOF_TENANT : String := "greenproof-climate"

/-- `emit_receipt(receipt)`: fill in a missing `ts` (the caller-supplied
current time `now`), a missing `tenant_id` (the default tenant), and a
missing `payload_hash` when a `payload` key is present; then append the
enriched record to the ledger. The JSONL file is modelled as the list of
appended records (each line is `json.dumps(receipt, sort_keys=True)`). -/
def emit_receipt (receipt : Dict) (now : String) (ledger : List Dict) :
    Dict × List Dict :=
  let r := if (receipt.lookup "ts").isSome then receipt
           else dictSet receipt "ts" (.str now)
  let r := if (r.lookup "tenant_id").isSome then r
           else dictSet r "tenant_id" (.str GREENPROOF_TENANT)
  let r := if (r.lookup "payload_hash").isSome then r
           else match r.lookup "payload" with
                | some p => dictSet r "payload_hash" (.str (dual_hash (Json.dumps true p)))
                | none => r
  (r, ledger ++ [r])

/-- `emit_anomaly_receipt(...)`: build the anomaly receipt and emit it.
Per the source's docstring this must happen before `StopRule` is raised. -/
def emit_anomaly_receipt (tenant_id anomaly_type classification : String)
    (details : Json) (action : String) (now : String) (ledger : List Dict) :
    Dict × List Dict :=
  let receipt : Dict :=
    [("receipt_type", .str "anomaly"),
     ("tenant_id", .str tenant_id),
     ("anomaly_type", .str anomaly_type),
     ("classification", .str classification),
     ("action", .str action),
     ("details", details),
     ("payload_hash", .str (dual_hash (Json.dumps true details)))]
  emit_receipt receipt now ledger

/-- `RECEIPT_SCHEMAS`: for each receipt type its required and optional
field lists. -/
def RECEIPT_SCHEMAS : List (String × (List String × List String)) :=
  [("ingest",
    (["ts", "tenant_id", "payload_hash", "source", "record_count"],
     ["metadata"])),
   ("emissions_verify",
    (["ts", "tenant_id", "payload_hash", "report_hash", "external_source_hashes",
      "match_score", "verified_value", "claimed_value", "discrepancy_pct", "status"],
     ["verification_method", "confidence_interval"])),
   ("carbon_credit",
    (["ts", "tenant_id", "payload_hash", "credit_id", "registry", "project_type",
      "claimed_tonnes", "baseline_tonnes", "additionality_score", "vintage_year",
      "registry_status", "verification_status"],
     ["project_location", "methodology"])),
   ("double_count",
    (["ts", "tenant_id", "payload_hash", "credit_id", "registries_checked",
      "occurrences", "is_unique", "merkle_position", "merkle_proof",
      "cross_registry_root"],
     ["previous_owners"])),
   ("climate_validation",
    (["ts", "tenant_id", "payload_hash", "compression_ratio", "entropy_signature",
      "physical_consistency", "validation_status"],
     ["physical_model", "expected_entropy_range"])),
   ("anomaly",
    (["ts", "tenant_id", "payload_hash", "anomaly_type", "classification",
      "action", "details"],
     ["related_receipts", "remediation"])),
   ("anchor",
    (["ts", "tenant_id", "payload_hash", "merkle_root", "leaf_count", "anchor_type"],
     ["previous_anchor", "chain_height"]))]

/-- `validate_receipt(receipt)`: `(is_valid, missing-or-invalid fields)`.
A falsy `receipt_type` (missing, `None`, `""`, …) is reported as missing;
a truthy non-string never matches a schema key (`dict.get` on the
string-keyed schema table), so it is reported as unknown. -/
def validate_receipt (receipt : Dict) : Bool × List String :=
  let rt := (receipt.lookup "receipt_type").getD .null
  if !jsonTruthy rt then (false, ["receipt_type missing"])
  else
    match rt with
    | .str t =>
        match RECEIPT_SCHEMAS.lookup t with
        | none => (false, ["unknown receipt_type: " ++ t])
        | some (required, _) =>
            let missing := required.filter (fun f => (receipt.lookup f).isNone)
            (missing.isEmpty, missing)
    | other => (false, ["unknown receipt_type: " ++ Json.dumps false other])

/-! ## Double-count prevention (src/double_count_prevent.py) -/

/-- One entry of `_CREDIT_REGISTRY[credit_id]`. -/
structure Occurrence where
  registry : String
  owner_hash : String
  credit_hash : String
  status : String
deriving Repr, DecidableEq

/-- The raised `StopRule` exception (message and classification). -/
structure StopRule where
  message : String
  classification : String
deriving Repr, DecidableEq

/-- The module-level mutable state of `double_count_prevent` plus the
receipt ledger it writes through. -/
structure RegState where
  creditRegistry : List (String × List Occurrence)
  merkleHashes : List String
  ledger : List Dict
deriving Repr

/-- `_CREDIT_REGISTRY.get(credit_id, [])` plus append: if the key exists
its history list is extended in place, otherwise a new entry is added. -/
def regAppend (r : List (String × List Occurrence)) (cid : String)
    (o : Occurrence) : List (String × List Occurrence) :=
  match r with
  | [] => [(cid, [o])]
  | (k, occs) :: rest =>
      if k = cid then (k, occs ++ [o]) :: rest else (k, occs) :: regAppend rest cid o

/-- An occurrence dict as stored in Python
(`{"registry": ..., "owner_hash": ..., "credit_hash": ..., "status": "active"}`). -/
def occToJson (o : Occurrence) : Json :=
  .obj [("registry", .str o.registry), ("owner_hash", .str o.owner_hash),
        ("credit_hash", .str o.credit_hash), ("status", .str o.status)]

/-- `stoprule_double_count(credit_id, occurrences)`: emit the critical
halt anomaly receipt, then build the `StopRule` that the caller raises.
Returning the exception value alongside the post-emission state models
"emit strictly before raise". -/
def stoprule_double_count (credit_id : String) (occurrences : List Occurrence)
    (tenant_id now : String) (st : RegState) : StopRule × RegState :=
  let details : Json :=
    .obj [("credit_id", .str credit_id),
          ("occurrence_count", .num occurrences.length),
          ("registries", .arr (occurrences.map (fun o => .str o.registry))),
          ("owners", .arr (occurrences.map (fun o => .str o.owner_hash)))]
  let (_, ledger') :=
    emit_anomaly_receipt tenant_id "double_count" "critical" details "halt" now st.ledger
  (⟨"Double-counting detected: " ++ credit_id ++ " appears in "
      ++ toString occurrences.length ++ " registries", "critical"⟩,
   { st with ledger := ledger' })

/-- `register_credit(credit_id, registry, owner_hash)`: hash the credit
instance, test uniqueness against the existing history, append the new
record and the new merkle leaf, emit the `double_count` receipt, and
raise `StopRule` (the `.error` case) when a conflicting record exists. -/
def register_credit (credit_id registry owner_hash tenant_id now : String)
    (st : RegState) : Except StopRule Dict × RegState :=
  let credit_instance : Json :=
    .obj [("credit_id", .str credit_id), ("registry", .str registry),
          ("owner_hash", .str owner_hash)]
  let credit_hash := dual_hash (Json.dumps true credit_instance)
  let existing := (st.creditRegistry.lookup credit_id).getD []
  let is_unique :=
    existing.all (fun o => o.registry == registry && o.owner_hash == owner_hash)
  let newOcc : Occurrence := ⟨registry, owner_hash, credit_hash, "active"⟩
  let reg' := regAppend st.creditRegistry credit_id newOcc
  let hashes := st.merkleHashes ++ [credit_hash]
  let pos := hashes.length - 1
  let proof := merkle_proof hashes pos
  let root := merkle_root hashes
  let occs := (reg'.lookup credit_id).getD []
  let result : Dict :=
    [("credit_id", .str credit_id),
     ("registry", .str registry),
     ("is_unique", .bool is_unique),
     ("merkle_position", .str (toString pos)),
     ("merkle_proof", .str (Json.dumps false (.obj proof))),
     ("cross_registry_root", .str root),
     ("occurrences", .arr (occs.map occToJson))]
  let receipt : Dict :=
    [("receipt_type", .str "double_count"),
     ("tenant_id", .str tenant_id),
     ("payload_hash", .str (dual_hash (Json.dumps true (.obj result)))),
     ("credit_id", .str credit_id),
     ("registries_checked", .arr [.str registry]),
     ("occurrences", .arr (occs.map occToJson)),
     ("is_unique", .bool is_unique),
     ("merkle_position", .str (toString pos)),
     ("merkle_proof", .str (Json.dumps false (.obj proof))),
     ("cross_registry_root", .str root)]
  let (_, ledger') := emit_receipt receipt now st.ledger
  let st' : RegState := ⟨reg', hashes, ledger'⟩
  if is_unique then (.ok result, st')
  else
    let (e, st'') := stoprule_double_count credit_id occs tenant_id now st'
    (.error e, st'')

/-! ## Fraud scoring (src/detect.py)

Python floats are modelled as exact rationals; the scores, confidences
and policy constants involved are all small decimal literals, and none
of the claims depends on binary rounding. -/

/-- `FRAUD_WEIGHTS`: base weight per check type. -/
def FRAUD_WEIGHTS : List (String × ℚ) :=
  [("compression_fraud", 0.35),
   ("double_counting", 0.30),
   ("additionality", 0.15),
   ("permanence", 0.10),
   ("leakage", 0.10)]

/-- `FRAUD_WEIGHTS.get(check_type, 0.1)`. -/
def fraudWeight (t : String) : ℚ := (FRAUD_WEIGHTS.lookup t).getD 0.1

/-- `FRAUD_LEVELS`: the classification buckets in insertion order. -/
def FRAUD_LEVELS : List (String × (ℚ × ℚ)) :=
  [("clean", (0, 0.20)),
   ("suspect", (0.20, 0.50)),
   ("likely_fraud", (0.50, 0.80)),
   ("confirmed_fraud", (0.80, 1.0))]

/-- A `FraudCheck` dataclass instance. -/
structure FraudCheck where
  check_type : String
  passed : Bool
  score : ℚ
  confidence : ℚ
  details : Dict := []

/-- The `max_critical_score` update of `calculate_fraud_score`'s loop:
track the maximum score among high-confidence critical checks. -/
def mcsStep (mcs : ℚ) (check : FraudCheck) : ℚ :=
  if check.confidence ≥ 0.90 ∧ check.score ≥ 0.80 then max mcs check.score else mcs

/-- The accumulator step of `calculate_fraud_score`'s loop:
`(weighted_sum, total_weight, max_critical_score)`. -/
def fraudStep (acc : ℚ × ℚ × ℚ) (check : FraudCheck) : ℚ × ℚ × ℚ :=
  let (ws, tw, mcs) := acc
  let adjusted := fraudWeight check.check_type * check.confidence
  (ws + check.score * adjusted, tw + adjusted, mcsStep mcs check)

/-- `calculate_fraud_score(checks)`: confidence-weighted average with the
high-confidence escalation clamp to at least `0.6`. -/
def calculate_fraud_score (checks : List FraudCheck) : ℚ :=
  if checks.isEmpty then 0
  else
    let (ws, tw, mcs) := checks.foldl fraudStep (0, 0, 0)
    if tw = 0 then 0
    else
      let base := ws / tw
      if mcs ≥ 0.80 then min 1 (max base 0.6)
      else min 1 base

/-- `classify_fraud_level(score)`: first bucket (in insertion order) with
`low <= score < high`, else the fallthrough
`"confirmed_fraud" if score >= 0.80 else "clean"`. -/
def classify_fraud_level (score : ℚ) : String :=
  match FRAUD_LEVELS.find? (fun p => decide (p.2.1 ≤ score ∧ score < p.2.2)) with
  | some p => p.1
  | none => if score ≥ 0.80 then "confirmed_fraud" else "clean"

/-! ## Proof chain anchoring (src/prove.py interface) -/

/-- An Anchor checkpoint (spec §3): 0-based monotonically increasing
height, the Merkle root and leaf count of the snapshot, and the previous
anchor's root (or `none` for the first anchor). -/
structure Anchor where
  height : Nat
  merkle_root : String
  leaf_count : Nat
  anchor_type : String
  previous_anchor : Option String
deriving Repr, DecidableEq

/-- The proof-chain state: the ordered leaf list mirroring the ledger
subset, and the anchors made so far. -/
structure ChainState where
  leaves : List String
  anchors : List Anchor
deriving Repr

/-- Modelled from the spec: `anchor_chain` is imported from `src.prove`
by `cli.py` and the tests but is absent from `src/prove.py` in the
repository, so it is modelled from spec §4.7 (`anchor(anchor_type)`):
snapshot the current leaf list, compute its Merkle root with the core
`merkle_root`, reference the previous anchor's root (`null` if first),
assign the next 0-based height, and emit the Anchor itself as a Receipt. -/
def anchor_chain (anchor_type tenant_id now : String) (st : ChainState)
    (ledger : List Dict) : Anchor × ChainState × List Dict :=
  let root := merkle_root st.leaves
  let prev := st.anchors.getLast?.map Anchor.merkle_root
  let a : Anchor := ⟨st.anchors.length, root, st.leaves.length, anchor_type, prev⟩
  let receipt : Dict :=
    [("receipt_type", .str "anchor"),
     ("tenant_id", .str tenant_id),
     ("payload_hash", .str (dual_hash root)),
     ("merkle_root", .str root),
     ("leaf_count", .num st.leaves.length),
     ("anchor_type", .str anchor_type),
     ("previous_anchor", match prev with | some p => .str p | none => .null),
     ("chain_height", .num a.height)]
  let (_, ledger') := emit_receipt receipt now ledger
  (a, ⟨st.leaves, st.anchors ++ [a]⟩, ledger')

/-- The mathematical recombination of a sibling path with its directions,
mirroring the loop of `verify_merkle_proof` on well-formed proofs. -/
def reconstruct (cur : String) : List String → List String → String
  | [], _ => cur
  | _ :: _, [] => cur
  | p :: ps, d :: ds =>
      reconstruct (dual_hash (if d == "right" then cur ++ p else p ++ cur)) ps ds

/-! ## Dictionary lemmas -/

/-- Looking up the key just set. -/
theorem lookup_dictSet_self (d : Dict) (k : String) (v : Json) :
    (dictSet d k v).lookup k = some v := by
  induction d with
  | nil => simp [dictSet, List.lookup]
  | cons p rest ih =>
      obtain ⟨k', v'⟩ := p
      by_cases h : k' = k
      · subst h; simp [dictSet, List.lookup]
      · have hb : (k == k') = false := beq_eq_false_iff_ne.mpr (Ne.symm h)
        simp [dictSet, h, List.lookup, hb, ih]

/-- Setting one key leaves every other key's lookup unchanged. -/
theorem lookup_dictSet_ne (d : Dict) {k k' : String} (v : Json) (h : k' ≠ k) :
    (dictSet d k v).lookup k' = d.lookup k' := by
  have hb : (k' == k) = false := beq_eq_false_iff_ne.mpr h
  induction d with
  | nil => simp [dictSet, List.lookup, hb]
  | cons p rest ih =>
      obtain ⟨k₀, v₀⟩ := p
      by_cases h₀ : k₀ = k
      · subst h₀; simp [dictSet, List.lookup, hb]
      · simp [dictSet, h₀, List.lookup, ih]

/-! ## C1, C9: the single-leaf Merkle inconsistency -/

/-- Claim C1 (code bug at the failing input): for the single-element
list `["a"]` and index `0`, verification of the generated proof against
`merkle_root ["a"]` returns `false`, not `true`: `merkle_proof` pads the
single leaf to a pair, so the proof reconstructs `dual_hash("aa")` while
`merkle_root` returns the leaf `"a"` unchanged. -/
theorem C1_verify_single_leaf_fails :
    verify_merkle_proof "a" (merkle_proof ["a"] 0) (merkle_root ["a"]) = some false := by
  decide

/-- Claim C9 (code bug at the failing input): `merkle_proof(["a"], 0)`
does not have an empty sibling path: the single leaf is padded to a
pair, so the proof carries the duplicated leaf as a sibling and one
`"right"` direction. -/
theorem C9_single_leaf_path_not_empty :
    (merkle_proof ["a"] 0).lookup "path" = some (.arr [.str "a"]) ∧
    (merkle_proof ["a"] 0).lookup "directions" = some (.arr [.str "right"]) := by
  exact ⟨rfl, rfl⟩

/-! ## C7: verification is not exception-free -/

/-- Claim C7 (code bug at the failing input): on the adversarial proof
dict `{"valid": true, "path": ["x"], "directions": []}` the code indexes
`proof["directions"][0]` out of range and raises `IndexError` (modelled
as `none`) instead of returning `false`. -/
theorem C7_verify_raises_on_mismatched_lengths :
    verify_merkle_proof "a"
      [("valid", .bool true), ("path", .arr [.str "x"]), ("directions", .arr [])]
      "a" = none := by
  rfl

/-! ## C5: receipt enrichment -/

/-- Claim C5 counterexample: `emit_receipt({})` contains no
`payload_hash` at all — the hash is only derived when an explicit
`payload` key is present, and the empty record has none. -/
theorem C5_counterexample :
    (emit_receipt [] "2025-01-01T00:00:00+00:00" []).1.lookup "payload_hash"
      = none := by
  rfl

/-- Claim C5 (amended): `emit_receipt` fills a missing `ts` with the
current time, a missing `tenant_id` with the default, and a missing
`payload_hash` with the hash of the canonical serialization of an
explicit `payload` field when one is present, never overwriting
caller-supplied values; but `emit_receipt({})` returns a record with the
timestamp and default tenant and no `payload_hash`. -/
theorem C5_emit_receipt_enrichment (r : Dict) (now : String) (L : List Dict) :
    ((emit_receipt r now L).1.lookup "ts"
        = if (r.lookup "ts").isSome then r.lookup "ts" else some (.str now)) ∧
    ((emit_receipt r now L).1.lookup "tenant_id"
        = if (r.lookup "tenant_id").isSome then r.lookup "tenant_id"
          else some (.str GREENPROOF_TENANT)) ∧
    ((emit_receipt r now L).1.lookup "payload_hash"
        = if (r.lookup "payload_hash").isSome then r.lookup "payload_hash"
          else match r.lookup "payload" with
               | some p => some (.str (dual_hash (Json.dumps true p)))
               | none => none) ∧
    (emit_receipt ([] : Dict) now L).1.lookup "ts" = some (.str now) ∧
    (emit_receipt ([] : Dict) now L).1.lookup "tenant_id"
      = some (.str GREENPROOF_TENANT) ∧
    (emit_receipt ([] : Dict) now L).1.lookup "payload_hash" = none := by
  refine ⟨?_, ?_, ?_, rfl, rfl, rfl⟩ <;>
  · rcases h1 : r.lookup "ts" with _ | v1 <;>
    rcases h2 : r.lookup "tenant_id" with _ | v2 <;>
    rcases h3 : r.lookup "payload_hash" with _ | v3 <;>
    rcases hp : r.lookup "payload" with _ | p <;>
    simp [emit_receipt, h1, h2, h3, hp, lookup_dictSet_self, lookup_dictSet_ne]

/-- Witness for C5: on a record that already carries a `ts` and has a
`payload`, the caller-supplied timestamp is preserved. -/
theorem C5_emit_receipt_enrichment_witness :
    (emit_receipt [("ts", .str "T0"), ("payload", .null)]
        "2025-01-01T00:00:00+00:00" []).1.lookup "ts"
      = if (([("ts", .str "T0"), ("payload", .null)] : Dict).lookup "ts").isSome
        then ([("ts", .str "T0"), ("payload", .null)] : Dict).lookup "ts"
        else some (.str "2025-01-01T00:00:00+00:00") :=
  (C5_emit_receipt_enrichment [("ts", .str "T0"), ("payload", .null)]
    "2025-01-01T00:00:00+00:00" []).1

/-! ## C8: receipt validation and the ledger boundary -/

/-- Claim C8 counterexample: a receipt with an unknown `receipt_type` is
invalid per `validate_receipt`, yet `emit_receipt` still appends it —
the ledger grows from 0 to 1 records; nothing validates at the boundary. -/
theorem C8_counterexample :
    (validate_receipt [("receipt_type", .str "bogus")]).1 = false ∧
    (emit_receipt [("receipt_type", .str "bogus")]
        "2025-01-01T00:00:00+00:00" []).2.length = 1 := by
  exact ⟨rfl, rfl⟩

/-- Claim C8 (amended): `validate_receipt` accepts a receipt exactly
when its `receipt_type` is a known non-empty schema key and every
required field of that schema is present (missing, unknown and falsy
types are rejected with reasons); but `emit_receipt` performs no
validation — it appends the enriched record to the ledger
unconditionally. -/
theorem C8_validate_and_emit (r : Dict) (now : String) (L : List Dict) :
    ((validate_receipt r).1 = true ↔
      ∃ t schema, r.lookup "receipt_type" = some (.str t) ∧ t ≠ "" ∧
        RECEIPT_SCHEMAS.lookup t = some schema ∧
        ∀ f ∈ schema.1, (r.lookup f).isSome) ∧
    (emit_receipt r now L).2 = L ++ [(emit_receipt r now L).1] := by
  constructor
  · simp only [validate_receipt]
    rcases hrt : r.lookup "receipt_type" with _ | rt
    · simp [hrt, jsonTruthy]
    · cases rt with
      | str s =>
          by_cases hs : s = ""
          · subst hs; simp [hrt, jsonTruthy]
          · rcases hsc : RECEIPT_SCHEMAS.lookup s with _ | ⟨req, opt⟩
            · simp [hrt, hsc, jsonTruthy, hs]
            · simp [hrt, hsc, jsonTruthy, hs, List.isEmpty_iff,
                    List.filter_eq_nil_iff, Option.isNone_iff_eq_none,
                    Option.isSome_iff_ne_none]
      | null => simp [hrt, jsonTruthy]
      | bool b => cases b <;> simp [hrt, jsonTruthy]
      | num n => by_cases hn : n = 0 <;> simp [hrt, jsonTruthy, hn]
      | arr xs => cases xs <;> simp [hrt, jsonTruthy]
      | obj kvs => cases kvs <;> simp [hrt, jsonTruthy]
  · simp only [emit_receipt]

/-- Witness for C8: a complete anomaly receipt validates, and emission
appends it to the (empty) ledger. -/
theorem C8_validate_and_emit_witness :
    (validate_receipt
        [("receipt_type", .str "anomaly"), ("ts", .str "T"),
         ("tenant_id", .str "t"), ("payload_hash", .str "h"),
         ("anomaly_type", .str "a"), ("classification", .str "critical"),
         ("action", .str "halt"), ("details", .null)]).1 = true ∧
    (emit_receipt
        [("receipt_type", .str "anomaly"), ("ts", .str "T"),
         ("tenant_id", .str "t"), ("payload_hash", .str "h"),
         ("anomaly_type", .str "a"), ("classification", .str "critical"),
         ("action", .str "halt"), ("details", .null)]
        "2025-01-01T00:00:00+00:00" []).2
      = [] ++ [(emit_receipt
          [("receipt_type", .str "anomaly"), ("ts", .str "T"),
           ("tenant_id", .str "t"), ("payload_hash", .str "h"),
           ("anomaly_type", .str "a"), ("classification", .str "critical"),
           ("action", .str "halt"), ("details", .null)]
          "2025-01-01T00:00:00+00:00" []).1] :=
  ⟨(C8_validate_and_emit
      [("receipt_type", .str "anomaly"), ("ts", .str "T"),
       ("tenant_id", .str "t"), ("payload_hash", .str "h"),
       ("anomaly_type", .str "a"), ("classification", .str "critical"),
       ("action", .str "halt"), ("details", .null)]
      "2025-01-01T00:00:00+00:00" []).1.mpr
    ⟨"anomaly",
     (["ts", "tenant_id", "payload_hash", "anomaly_type", "classification",
       "action", "details"],
      ["related_receipts", "remediation"]),
     rfl, by decide, rfl, by decide⟩,
   (C8_validate_and_emit
      [("receipt_type", .str "anomaly"), ("ts", .str "T"),
       ("tenant_id", .str "t"), ("payload_hash", .str "h"),
       ("anomaly_type", .str "a"), ("classification", .str "critical"),
       ("action", .str "halt"), ("details", .null)]
      "2025-01-01T00:00:00+00:00" []).2⟩

/-! ## C2, C3: the cross-registry credit registry -/

/-- Looking up the credit whose history was just extended. -/
theorem lookup_regAppend_self (R : List (String × List Occurrence)) (cid : String)
    (o : Occurrence) :
    (regAppend R cid o).lookup cid = some ((R.lookup cid).getD [] ++ [o]) := by
  induction R with
  | nil => simp [regAppend, List.lookup]
  | cons p rest ih =>
      obtain ⟨k, occs⟩ := p
      by_cases h : k = cid
      · subst h; simp [regAppend, List.lookup]
      · have hb : (cid == k) = false := beq_eq_false_iff_ne.mpr (Ne.symm h)
        simp [regAppend, h, List.lookup, hb, ih]

/-- Extending one credit's history leaves every other credit unchanged. -/
theorem lookup_regAppend_ne (R : List (String × List Occurrence)) {cid cid' : String}
    (o : Occurrence) (h : cid' ≠ cid) :
    (regAppend R cid o).lookup cid' = R.lookup cid' := by
  have hb : (cid' == cid) = false := beq_eq_false_iff_ne.mpr h
  induction R with
  | nil => simp [regAppend, List.lookup, hb]
  | cons p rest ih =>
      obtain ⟨k, occs⟩ := p
      by_cases h₀ : k = cid
      · subst h₀; simp [regAppend, List.lookup, hb]
      · simp [regAppend, h₀, List.lookup, ih]

/-- Claim C2: registering a credit that already has a record under a
different registry or owner returns the halting `StopRule` with
`classification="critical"`, and the state carried by that error already
contains — appended strictly before the raise — the `double_count`
receipt followed by the anomaly receipt with `classification=critical`
and `action=halt`. -/
theorem C2_register_credit_halt_after_anomaly
    (st : RegState) (cid reg owner tenant now : String)
    (h : ∃ o ∈ (st.creditRegistry.lookup cid).getD [],
           o.registry ≠ reg ∨ o.owner_hash ≠ owner) :
    ∃ e dc anom,
      (register_credit cid reg owner tenant now st).1 = .error e ∧
      e.classification = "critical" ∧
      (register_credit cid reg owner tenant now st).2.ledger
        = st.ledger ++ [dc, anom] ∧
      dc.lookup "receipt_type" = some (.str "double_count") ∧
      anom.lookup "receipt_type" = some (.str "anomaly") ∧
      anom.lookup "classification" = some (.str "critical") ∧
      anom.lookup "action" = some (.str "halt") := by
  have hu : ((st.creditRegistry.lookup cid).getD []).all
      (fun o => o.registry == reg && o.owner_hash == owner) = false := by
    obtain ⟨o, ho, hne⟩ := h
    refine List.all_eq_false.mpr ⟨o, ho, ?_⟩
    rcases hne with hne | hne <;> simp [Bool.and_eq_true, beq_iff_eq, hne]
  simp only [register_credit, hu, Bool.false_eq_true, if_false,
             stoprule_double_count, emit_anomaly_receipt, emit_receipt]
  simp only [List.lookup, dictSet, Option.isSome_some, Option.isSome_none,
             List.append_assoc, List.cons_append, List.nil_append]
  exact ⟨_, _, _, rfl, rfl, rfl, rfl, rfl, rfl, rfl⟩

/-- Witness for C2: a concrete conflicting registration (existing record
under `verra`/`o1`, new registration under `gold_standard`/`o2`) raises
the critical `StopRule` with the halt anomaly already on the ledger. -/
theorem C2_register_credit_halt_after_anomaly_witness :
    ∃ e dc anom,
      (register_credit "c1" "gold_standard" "o2" "greenproof-climate"
          "2025-01-01T00:00:00+00:00"
          ⟨[("c1", [⟨"verra", "o1", "h0", "active"⟩])], ["h0"], []⟩).1 = .error e ∧
      e.classification = "critical" ∧
      (register_credit "c1" "gold_standard" "o2" "greenproof-climate"
          "2025-01-01T00:00:00+00:00"
          ⟨[("c1", [⟨"verra", "o1", "h0", "active"⟩])], ["h0"], []⟩).2.ledger
        = ([] : List Dict) ++ [dc, anom] ∧
      dc.lookup "receipt_type" = some (.str "double_count") ∧
      anom.lookup "receipt_type" = some (.str "anomaly") ∧
      anom.lookup "classification" = some (.str "critical") ∧
      anom.lookup "action" = some (.str "halt") :=
  C2_register_credit_halt_after_anomaly
    ⟨[("c1", [⟨"verra", "o1", "h0", "active"⟩])], ["h0"], []⟩
    "c1" "gold_standard" "o2" "greenproof-climate" "2025-01-01T00:00:00+00:00"
    (by decide)

/-- Claim C3: `is_unique` is true exactly when no existing record for the
credit differs in registry or owner (so re-registration by the same
party reports `is_unique=true` and returns normally, while a conflicting
record raises); and in every case the new record is appended to the
credit's history with all other credits' histories untouched. -/
theorem C3_register_credit_unique_iff_and_append
    (st : RegState) (cid reg owner tenant now : String) :
    ((∀ o ∈ (st.creditRegistry.lookup cid).getD [],
        o.registry = reg ∧ o.owner_hash = owner) →
      ∃ d, (register_credit cid reg owner tenant now st).1 = .ok d ∧
           d.lookup "is_unique" = some (.bool true)) ∧
    ((∃ o ∈ (st.creditRegistry.lookup cid).getD [],
        o.registry ≠ reg ∨ o.owner_hash ≠ owner) →
      ∃ e, (register_credit cid reg owner tenant now st).1 = .error e) ∧
    ((register_credit cid reg owner tenant now st).2.creditRegistry.lookup cid
      = some ((st.creditRegistry.lookup cid).getD [] ++
          [⟨reg, owner,
            dual_hash (Json.dumps true (.obj
              [("credit_id", .str cid), ("registry", .str reg),
               ("owner_hash", .str owner)])), "active"⟩])) ∧
    (∀ cid', cid' ≠ cid →
      (register_credit cid reg owner tenant now st).2.creditRegistry.lookup cid'
        = st.creditRegistry.lookup cid') := by
  have hreg : (register_credit cid reg owner tenant now st).2.creditRegistry
      = regAppend st.creditRegistry cid
          ⟨reg, owner,
           dual_hash (Json.dumps true (.obj
             [("credit_id", .str cid), ("registry", .str reg),
              ("owner_hash", .str owner)])), "active"⟩ := by
    by_cases hc : ((st.creditRegistry.lookup cid).getD []).all
        (fun o => o.registry == reg && o.owner_hash == owner) = true
    · simp only [register_credit, hc, if_true]
    · simp only [register_credit, Bool.not_eq_true] at hc ⊢
      simp only [hc, Bool.false_eq_true, if_false, stoprule_double_count]
  refine ⟨?_, ?_, ?_, ?_⟩
  · intro hall
    have hu : ((st.creditRegistry.lookup cid).getD []).all
        (fun o => o.registry == reg && o.owner_hash == owner) = true :=
      List.all_eq_true.mpr fun o ho => by
        simp [Bool.and_eq_true, beq_iff_eq, (hall o ho).1, (hall o ho).2]
    simp only [register_credit, hu, if_true]
    exact ⟨_, rfl, rfl⟩
  · intro hex
    have hu : ((st.creditRegistry.lookup cid).getD []).all
        (fun o => o.registry == reg && o.owner_hash == owner) = false := by
      obtain ⟨o, ho, hne⟩ := hex
      refine List.all_eq_false.mpr ⟨o, ho, ?_⟩
      rcases hne with hne | hne <;> simp [Bool.and_eq_true, beq_iff_eq, hne]
    simp only [register_credit, hu, Bool.false_eq_true, if_false,
               stoprule_double_count]
    exact ⟨_, rfl⟩
  · rw [hreg, lookup_regAppend_self]
  · intro cid' hne
    rw [hreg, lookup_regAppend_ne _ _ hne]

/-- Witness for C3: re-registering the same credit under the same
registry and owner reports `is_unique=true`, and the history of the
credit now holds both records. -/
theorem C3_register_credit_unique_iff_and_append_witness :
    (∃ d, (register_credit "c1" "verra" "o1" "greenproof-climate"
          "2025-01-01T00:00:00+00:00"
          ⟨[("c1", [⟨"verra", "o1", "h0", "active"⟩])], ["h0"], []⟩).1 = .ok d ∧
        d.lookup "is_unique" = some (.bool true)) ∧
    ((register_credit "c1" "verra" "o1" "greenproof-climate"
          "2025-01-01T00:00:00+00:00"
          ⟨[("c1", [⟨"verra", "o1", "h0", "active"⟩])], ["h0"], []⟩).2.creditRegistry.lookup "c1"
      = some ([⟨"verra", "o1", "h0", "active"⟩] ++
          [⟨"verra", "o1",
            dual_hash (Json.dumps true (.obj
              [("credit_id", .str "c1"), ("registry", .str "verra"),
               ("owner_hash", .str "o1")])), "active"⟩])) :=
  ⟨(C3_register_credit_unique_iff_and_append
      ⟨[("c1", [⟨"verra", "o1", "h0", "active"⟩])], ["h0"], []⟩
      "c1" "verra" "o1" "greenproof-climate" "2025-01-01T00:00:00+00:00").1
      (by decide),
   (C3_register_credit_unique_iff_and_append
      ⟨[("c1", [⟨"verra", "o1", "h0", "active"⟩])], ["h0"], []⟩
      "c1" "verra" "o1" "greenproof-climate" "2025-01-01T00:00:00+00:00").2.2.1⟩

/-! ## C6: the anchor chain -/

/-- Claim C6: anchoring twice with no intervening receipt emission (the
leaf list unchanged) yields two Anchors with the same Merkle root and
leaf count, strictly increasing height, and the second referencing the
first's root as `previous_anchor`; each anchor is emitted as a receipt
with `receipt_type="anchor"`. -/
theorem C6_anchor_chain_hash_linked (st : ChainState) (t tenant now now' : String)
    (L : List Dict) :
    (anchor_chain t tenant now'
        (anchor_chain t tenant now st L).2.1
        (anchor_chain t tenant now st L).2.2).1.merkle_root
      = (anchor_chain t tenant now st L).1.merkle_root ∧
    (anchor_chain t tenant now'
        (anchor_chain t tenant now st L).2.1
        (anchor_chain t tenant now st L).2.2).1.leaf_count
      = (anchor_chain t tenant now st L).1.leaf_count ∧
    (anchor_chain t tenant now st L).1.height
      < (anchor_chain t tenant now'
          (anchor_chain t tenant now st L).2.1
          (anchor_chain t tenant now st L).2.2).1.height ∧
    (anchor_chain t tenant now'
        (anchor_chain t tenant now st L).2.1
        (anchor_chain t tenant now st L).2.2).1.previous_anchor
      = some (anchor_chain t tenant now st L).1.merkle_root ∧
    (∃ r, (anchor_chain t tenant now st L).2.2 = L ++ [r] ∧
          r.lookup "receipt_type" = some (.str "anchor")) := by
  refine ⟨rfl, rfl, ?_, ?_, ?_⟩
  · simp [anchor_chain]
  · simp [anchor_chain]
  · simp only [anchor_chain, emit_receipt, List.lookup, dictSet,
               Option.isSome_some, Option.isSome_none]
    exact ⟨_, rfl, rfl⟩

/-! ## C10: fraud-level classification is total -/

set_option linter.unnecessarySeqFocus false in
/-- Claim C10: `classify_fraud_level` always returns one of the four
level strings; every negative score falls through to `"clean"`, and
every score at or above `0.80` — including `1.0` and above — yields
`"confirmed_fraud"`. -/
theorem C10_classify_fraud_level_total (s : ℚ) :
    (classify_fraud_level s = "clean" ∨ classify_fraud_level s = "suspect" ∨
     classify_fraud_level s = "likely_fraud" ∨
     classify_fraud_level s = "confirmed_fraud") ∧
    (s < 0 → classify_fraud_level s = "clean") ∧
    ((0.80 : ℚ) ≤ s → classify_fraud_level s = "confirmed_fraud") := by
  refine ⟨?_, ?_, ?_⟩
  · by_cases c1 : (0:ℚ) ≤ s ∧ s < 0.20 <;>
    by_cases c2 : (0.20:ℚ) ≤ s ∧ s < 0.50 <;>
    by_cases c3 : (0.50:ℚ) ≤ s ∧ s < 0.80 <;>
    by_cases c4 : (0.80:ℚ) ≤ s ∧ s < 1.0 <;>
    simp [classify_fraud_level, FRAUD_LEVELS, List.find?, c1, c2, c3, c4] <;>
    (try split) <;> simp
    all_goals exact lt_or_le s 0.80
  · intro h
    have h1 : ¬((0:ℚ) ≤ s) := not_le.mpr h
    have h2 : ¬((0.20:ℚ) ≤ s) := not_le.mpr (by linarith)
    have h3 : ¬((0.50:ℚ) ≤ s) := not_le.mpr (by linarith)
    have h4 : ¬((0.80:ℚ) ≤ s) := not_le.mpr (by linarith)
    simp [classify_fraud_level, FRAUD_LEVELS, List.find?, h1, h2, h3, h4]
  · intro h
    have h1 : ¬(s < (0.20:ℚ)) := not_lt.mpr (by linarith)
    have h2 : ¬(s < (0.50:ℚ)) := not_lt.mpr (by linarith)
    have h3 : ¬(s < (0.80:ℚ)) := not_lt.mpr h
    by_cases h4 : s < (1.0:ℚ) <;>
    simp [classify_fraud_level, FRAUD_LEVELS, List.find?, h1, h2, h3, h4, h]

/-- Witness for C10: the classification at `-1` is `"clean"` and at
`0.9` it is `"confirmed_fraud"`. -/
theorem C10_classify_fraud_level_total_witness :
    classify_fraud_level (-1) = "clean" ∧
    classify_fraud_level 0.9 = "confirmed_fraud" :=
  ⟨(C10_classify_fraud_level_total (-1)).2.1 (by norm_num),
   (C10_classify_fraud_level_total 0.9).2.2 (by norm_num)⟩

/-! ## C4: the fraud-score aggregator -/

/-- Every base weight is positive: the table values are, and so is the
`0.1` default for unknown check types. -/
theorem fraudWeight_pos (t : String) : 0 < fraudWeight t := by
  simp only [fraudWeight, FRAUD_WEIGHTS, List.lookup]
  repeat' split
  all_goals norm_num

/-- The aggregation loop computes the two weighted sums and the running
critical maximum. -/
theorem fraudFold_eq (checks : List FraudCheck) (a b m : ℚ) :
    checks.foldl fraudStep (a, b, m) =
      (a + (checks.map fun c => c.score * (fraudWeight c.check_type * c.confidence)).sum,
       b + (checks.map fun c => fraudWeight c.check_type * c.confidence).sum,
       checks.foldl mcsStep m) := by
  induction checks generalizing a b m with
  | nil => simp
  | cons c rest ih =>
      simp only [List.foldl_cons, List.map_cons, List.sum_cons, fraudStep, ih]
      refine Prod.ext ?_ (Prod.ext ?_ rfl) <;> dsimp <;> ring

/-- Without a high-confidence critical check the running maximum never
moves. -/
theorem mcs_fold_of_none (checks : List FraudCheck) (m : ℚ)
    (h : ∀ c ∈ checks, ¬(c.confidence ≥ 0.90 ∧ c.score ≥ 0.80)) :
    checks.foldl mcsStep m = m := by
  induction checks generalizing m with
  | nil => rfl
  | cons c rest ih =>
      have hc := h c (by simp)
      simp only [List.foldl_cons, mcsStep, hc, if_false]
      exact ih _ fun d hd => h d (by simp [hd])

/-- The running critical maximum never decreases. -/
theorem le_mcs_fold (checks : List FraudCheck) (m : ℚ) :
    m ≤ checks.foldl mcsStep m := by
  induction checks generalizing m with
  | nil => exact le_refl m
  | cons c rest ih =>
      refine le_trans ?_ (ih (mcsStep m c))
      simp only [mcsStep]
      split
      · exact le_max_left _ _
      · exact le_refl m

/-- A high-confidence critical check pushes the running maximum to at
least `0.80`. -/
theorem mcs_fold_ge (checks : List FraudCheck) {c : FraudCheck} (hmem : c ∈ checks)
    (h9 : c.confidence ≥ 0.90) (h8 : c.score ≥ 0.80) (m : ℚ) :
    (0.80 : ℚ) ≤ checks.foldl mcsStep m := by
  induction checks generalizing m with
  | nil => cases hmem
  | cons d rest ih =>
      rcases List.mem_cons.mp hmem with rfl | hmem'
      · refine le_trans ?_ (le_mcs_fold rest (mcsStep m c))
        simp only [mcsStep, h9, h8, and_self, if_true]
        exact le_trans h8 (le_max_right _ _)
      · exact ih hmem' _

/-- Claim C4: for checks with scores and confidences in `[0, 1]` the
aggregate fraud score is the confidence-weighted average
`Σ(scoreᵢ·wᵢ·confᵢ)/Σ(wᵢ·confᵢ)`, is `0` for an empty list or a zero
denominator, and whenever some check has `confidence ≥ 0.90` and
`score ≥ 0.80` the result is clamped up to `max(average, 0.6)`. -/
theorem C4_calculate_fraud_score_weighted_average (checks : List FraudCheck)
    (hs : ∀ c ∈ checks, 0 ≤ c.score ∧ c.score ≤ 1)
    (hc : ∀ c ∈ checks, 0 ≤ c.confidence ∧ c.confidence ≤ 1) :
    ((checks = [] ∨
        (checks.map fun c => fraudWeight c.check_type * c.confidence).sum = 0) →
      calculate_fraud_score checks = 0) ∧
    ((checks.map fun c => fraudWeight c.check_type * c.confidence).sum ≠ 0 →
      (∀ c ∈ checks, ¬(c.confidence ≥ 0.90 ∧ c.score ≥ 0.80)) →
      calculate_fraud_score checks
        = (checks.map fun c => c.score * (fraudWeight c.check_type * c.confidence)).sum
          / (checks.map fun c => fraudWeight c.check_type * c.confidence).sum) ∧
    ((∃ c ∈ checks, c.confidence ≥ 0.90 ∧ c.score ≥ 0.80) →
      calculate_fraud_score checks
        = max ((checks.map fun c => c.score * (fraudWeight c.check_type * c.confidence)).sum
            / (checks.map fun c => fraudWeight c.check_type * c.confidence).sum) 0.6) := by
  have hnn : ∀ x ∈ checks.map fun c => fraudWeight c.check_type * c.confidence, (0:ℚ) ≤ x := by
    intro x hx
    obtain ⟨c, hcm, rfl⟩ := List.mem_map.mp hx
    exact mul_nonneg (le_of_lt (fraudWeight_pos _)) (hc c hcm).1
  have htw0 : (0:ℚ) ≤ (checks.map fun c => fraudWeight c.check_type * c.confidence).sum :=
    List.sum_nonneg hnn
  have hwsle : (checks.map fun c => c.score * (fraudWeight c.check_type * c.confidence)).sum
      ≤ (checks.map fun c => fraudWeight c.check_type * c.confidence).sum := by
    refine List.sum_le_sum fun c hcm => ?_
    exact mul_le_of_le_one_left
      (mul_nonneg (le_of_lt (fraudWeight_pos _)) (hc c hcm).1) (hs c hcm).2
  refine ⟨?_, ?_, ?_⟩
  · rintro (rfl | h0)
    · rfl
    · cases checks with
      | nil => rfl
      | cons d r =>
          simp only [calculate_fraud_score, List.isEmpty_cons, Bool.false_eq_true,
                     if_false, fraudFold_eq, zero_add, h0]
          simp
  · intro h0 hnone
    have hne : checks.isEmpty = false := by
      cases checks with
      | nil => simp at h0
      | cons c r => rfl
    have hmcs := mcs_fold_of_none checks 0 hnone
    simp only [calculate_fraud_score, hne, Bool.false_eq_true, if_false,
               fraudFold_eq, zero_add, hmcs]
    rw [if_neg h0, if_neg (by norm_num : ¬((0:ℚ) ≥ 0.80))]
    exact min_eq_right ((div_le_one (lt_of_le_of_ne htw0 (Ne.symm h0))).mpr hwsle)
  · rintro ⟨c, hcm, h9, h8⟩
    have hne : checks.isEmpty = false := by
      cases checks with
      | nil => cases hcm
      | cons d r => rfl
    have hfc : (0:ℚ) < fraudWeight c.check_type * c.confidence :=
      mul_pos (fraudWeight_pos _) (lt_of_lt_of_le (by norm_num) h9)
    have htwpos : (0:ℚ) < (checks.map fun d => fraudWeight d.check_type * d.confidence).sum :=
      lt_of_lt_of_le hfc (List.single_le_sum hnn _ (List.mem_map_of_mem _ hcm))
    have hmcs8 : (0.80:ℚ) ≤ checks.foldl mcsStep 0 := mcs_fold_ge checks hcm h9 h8 0
    simp only [calculate_fraud_score, hne, Bool.false_eq_true, if_false,
               fraudFold_eq, zero_add]
    rw [if_neg (ne_of_gt htwpos), if_pos hmcs8]
    exact min_eq_right (max_le ((div_le_one htwpos).mpr hwsle) (by norm_num))

/-- Witness for C4: a single very-confident strongly-positive check
(`score=0.9`, `confidence=0.95`) makes the aggregate the escalated
`max(average, 0.6)`. -/
theorem C4_calculate_fraud_score_weighted_average_witness :
    calculate_fraud_score [⟨"compression_fraud", false, 0.9, 0.95, []⟩]
      = max ((([⟨"compression_fraud", false, 0.9, 0.95, []⟩] : List FraudCheck).map
            (fun c => c.score * (fraudWeight c.check_type * c.confidence))).sum
          / (([⟨"compression_fraud", false, 0.9, 0.95, []⟩] : List FraudCheck).map
            (fun c => fraudWeight c.check_type * c.confidence)).sum) 0.6 :=
  (C4_calculate_fraud_score_weighted_average
      [⟨"compression_fraud", false, 0.9, 0.95, []⟩]
      (fun c hcm => by rw [List.mem_singleton] at hcm; subst hcm;
                       exact ⟨by norm_num, by norm_num⟩)
      (fun c hcm => by rw [List.mem_singleton] at hcm; subst hcm;
                       exact ⟨by norm_num, by norm_num⟩)).2.2
    ⟨⟨"compression_fraud", false, 0.9, 0.95, []⟩, List.mem_singleton_self _,
     by norm_num, by norm_num⟩

/-! ## Soundness of Merkle verification for lists of length at least two

The single-leaf case is broken (claims C1/C9); these lemmas show the
padding logic of `merkle_proof` mirrors `merkle_root` exactly on every
list with at least two leaves, so every generated proof verifies. -/

theorem combinePairs_length : ∀ (w : List String),
    (combinePairs w).length = w.length / 2
  | [] => by simp [combinePairs]
  | [_] => by simp [combinePairs]
  | a :: b :: rest => by
      simp [combinePairs, combinePairs_length rest]
      omega

theorem combinePairs_getD : ∀ (w : List String) (j : Nat),
    2 * j + 1 < w.length →
    (combinePairs w).getD j "" = dual_hash (w.getD (2 * j) "" ++ w.getD (2 * j + 1) "")
  | [], j, h => by simp at h
  | [_], j, h => by simp at h
  | a :: b :: rest, 0, _ => by simp [combinePairs]
  | a :: b :: rest, j + 1, h => by
      have ih := combinePairs_getD rest j (by simp at h; omega)
      have e1 : 2 * (j + 1) = 2 * j + 1 + 1 := by omega
      rw [e1]
      simp only [combinePairs, List.getD_cons_succ]
      exact ih

theorem padEven_length_even (w : List String) : (padEven w).length % 2 = 0 := by
  simp only [padEven]
  split
  · simp
    omega
  · omega

theorem padEven_eq_self (w : List String) (h : w.length % 2 = 0) : padEven w = w := by
  simp only [padEven]
  rw [if_neg (by omega)]

theorem padEven_length_le (w : List String) : (padEven w).length ≤ w.length + 1 := by
  simp only [padEven]
  split <;> simp

theorem length_le_padEven (w : List String) : w.length ≤ (padEven w).length := by
  simp only [padEven]
  split <;> simp

theorem padEven_getD (w : List String) (i : Nat) (h : i < w.length) :
    (padEven w).getD i "" = w.getD i "" := by
  simp only [padEven]
  split
  · exact List.getD_append _ _ _ _ h
  · rfl

theorem rootAux_one (f : Nat) (r : String) : rootAux f [r] = r := by
  cases f <;> simp [rootAux]

theorem rootAux_step (f : Nat) (w : List String) (h : 2 ≤ w.length) :
    rootAux (f + 1) w = rootAux f (combinePairs (padEven w)) := by
  simp only [rootAux]
  rw [if_neg (by omega)]

theorem rootAux_pad (f : Nat) (w : List String) (h : 2 ≤ w.length) :
    rootAux (f + 1) w = rootAux (f + 1) (padEven w) := by
  rw [rootAux_step f w h,
      rootAux_step f (padEven w) (le_trans h (length_le_padEven w)),
      padEven_eq_self (padEven w) (padEven_length_even w)]

theorem rootAux_fuel_irrel : ∀ (f1 : Nat) (w : List String) (f2 : Nat),
    w.length ≤ f1 → w.length ≤ f2 → rootAux f1 w = rootAux f2 w := by
  intro f1
  induction f1 with
  | zero =>
      intro w f2 h1 _
      have hw : w = [] := List.length_eq_zero.mp (by omega)
      subst hw
      cases f2 <;> simp [rootAux]
  | succ a ih =>
      intro w f2 h1 h2
      cases f2 with
      | zero =>
          have hw : w = [] := List.length_eq_zero.mp (by omega)
          subst hw
          simp [rootAux]
      | succ b =>
          by_cases hw : w.length ≤ 1
          · simp [rootAux, hw]
          · rw [rootAux_step a w (by omega), rootAux_step b w (by omega)]
            have hlen : (combinePairs (padEven w)).length ≤ w.length - 1 := by
              rw [combinePairs_length]
              have := padEven_length_le w
              omega
            exact ih _ b (by omega) (by omega)
theorem get?_map_str : ∀ (D : List String) (k : Nat), k < D.length →
    (D.map Json.str).get? k = some (.str (D.getD k ""))
  | [], k, h => by simp at h
  | d :: ds, 0, _ => rfl
  | d :: ds, k + 1, h => by
      simpa using get?_map_str ds k (by simp at h; omega)

theorem drop_eq_getD_cons : ∀ (D : List String) (k : Nat), k < D.length →
    D.drop k = D.getD k "" :: D.drop (k + 1)
  | [], k, h => by simp at h
  | d :: ds, 0, _ => rfl
  | d :: ds, k + 1, h => by
      simpa using drop_eq_getD_cons ds k (by simp at h; omega)

theorem verifyLoop_eq (dict : Dict) (D : List String)
    (hdict : dict.lookup "directions" = some (.arr (D.map .str))) :
    ∀ (P : List String) (k : Nat) (cur : String), k + P.length ≤ D.length →
    verifyLoop k dict cur (P.map .str) = some (reconstruct cur P (D.drop k)) := by
  intro P
  induction P with
  | nil => intro k cur _; simp [verifyLoop, reconstruct]
  | cons s ps ih =>
      intro k cur hk
      have hkD : k < D.length := by simp at hk; omega
      rw [drop_eq_getD_cons D k hkD]
      simp only [List.map_cons, verifyLoop, hdict, get?_map_str D k hkD,
                 Option.bind_eq_bind, Option.some_bind, reconstruct]
      exact ih (k + 1) _ (by simp at hk ⊢; omega)
theorem proofAux_sound :
    ∀ (fuel : Nat) (w : List String) (i : Nat) (accP accD : List String),
      w.length ≤ fuel → w.length % 2 = 0 → 2 ≤ w.length → i < w.length →
      ∃ P D,
        proofAux fuel w i accP accD
          = (accP ++ P, accD ++ D, [rootAux fuel w]) ∧
        P.length = D.length ∧
        reconstruct (w.getD i "") P D = rootAux fuel w := by
  intro fuel
  induction fuel with
  | zero => intro w i _ _ hf _ h2 _; omega
  | succ f ih =>
      intro w i accP accD hf heven h2 hi
      have hsib : (if i % 2 = 0 then i + 1 else i - 1) < w.length := by
        split <;> omega
      have hwle : ¬ w.length ≤ 1 := by omega
      by_cases hsmall : w.length = 2
      · -- base level: w = [a, b], the tree collapses in one combine
        obtain ⟨a, b, rfl⟩ := List.length_eq_two.mp hsmall
        have hroot : rootAux (f + 1) [a, b] = dual_hash (a ++ b) := by
          rw [rootAux_step f [a, b] (by simp),
              padEven_eq_self [a, b] (by simp)]
          exact rootAux_one f _
        have hi01 : i = 0 ∨ i = 1 := by simp at hi; omega
        rcases hi01 with rfl | rfl
        · refine ⟨[b], ["right"], ?_, rfl, ?_⟩
          · simp only [proofAux, hroot]
            norm_num [combinePairs]
            cases f <;> simp [proofAux]
          · simp [reconstruct, hroot]
        · refine ⟨[a], ["left"], ?_, rfl, ?_⟩
          · simp only [proofAux, hroot]
            norm_num [combinePairs]
            cases f <;> simp [proofAux]
          · simp [reconstruct, hroot]
      · -- inductive level: length ≥ 4
        have h4 : 4 ≤ w.length := by omega
        have hnl : (combinePairs w).length = w.length / 2 := combinePairs_length w
        have hnext2 : 2 ≤ (combinePairs w).length := by omega
        -- the in-loop re-padding equals padEven on this level
        have hpadnext :
            (if (combinePairs w).length % 2 = 1 ∧ 1 < (combinePairs w).length
             then combinePairs w ++ [(combinePairs w).getLastD ""]
             else combinePairs w) = padEven (combinePairs w) := by
          simp only [padEven]
          by_cases hodd : (combinePairs w).length % 2 = 1
          · rw [if_pos ⟨hodd, by omega⟩, if_pos hodd]
          · rw [if_neg (by tauto), if_neg hodd]
        have hlen' : (padEven (combinePairs w)).length ≤ f := by
          have := padEven_length_le (combinePairs w)
          omega
        have hi' : i / 2 < (padEven (combinePairs w)).length := by
          have := length_le_padEven (combinePairs w)
          omega
        obtain ⟨P', D', heq', hlen'', hrec'⟩ :=
          ih (padEven (combinePairs w)) (i / 2)
            (accP ++ [w.getD (if i % 2 = 0 then i + 1 else i - 1) ""])
            (accD ++ [if i % 2 = 0 then "right" else "left"])
            hlen' (padEven_length_even _) (le_trans hnext2 (length_le_padEven _)) hi'
        have hrootchain : rootAux (f + 1) w = rootAux f (padEven (combinePairs w)) := by
          rw [rootAux_step f w h2, padEven_eq_self w heven]
          obtain ⟨g, rfl⟩ : ∃ g, f = g + 1 := ⟨f - 1, by omega⟩
          exact rootAux_pad g (combinePairs w) hnext2
        refine ⟨w.getD (if i % 2 = 0 then i + 1 else i - 1) "" :: P',
                (if i % 2 = 0 then "right" else "left") :: D', ?_, by simp [hlen''], ?_⟩
        · -- unfold one loop iteration and use the IH equation
          rw [show proofAux (f + 1) w i accP accD
                = proofAux f (padEven (combinePairs w)) (i / 2)
                    (accP ++ [w.getD (if i % 2 = 0 then i + 1 else i - 1) ""])
                    (accD ++ [if i % 2 = 0 then "right" else "left"]) from ?_,
              heq', hrootchain]
          · simp
          · simp only [proofAux, if_neg hwle, if_pos hsib, hpadnext]
        · -- one reconstruction step lands on the parent node
          have hstep :
              (if (if i % 2 = 0 then "right" else "left") == "right"
               then w.getD i "" ++ w.getD (if i % 2 = 0 then i + 1 else i - 1) ""
               else w.getD (if i % 2 = 0 then i + 1 else i - 1) "" ++ w.getD i "")
              = w.getD (2 * (i / 2)) "" ++ w.getD (2 * (i / 2) + 1) "" := by
            by_cases hpar : i % 2 = 0
            · rw [show 2 * (i / 2) + 1 = i + 1 from by omega,
                  show 2 * (i / 2) = i from by omega]
              simp [hpar]
            · rw [show 2 * (i / 2) + 1 = i from by omega,
                  show 2 * (i / 2) = i - 1 from by omega]
              simp [hpar]
          have hparent :
              dual_hash (w.getD (2 * (i / 2)) "" ++ w.getD (2 * (i / 2) + 1) "")
                = (padEven (combinePairs w)).getD (i / 2) "" := by
            rw [padEven_getD (combinePairs w) (i / 2) (by omega),
                combinePairs_getD w (i / 2) (by omega)]
          simp only [reconstruct, hstep, hparent, hrec', hrootchain]
theorem verify_merkle_proof_complete (L : List String) (i : Nat)
    (h2 : 2 ≤ L.length) (hi : i < L.length) :
    verify_merkle_proof (L.getD i "") (merkle_proof L i) (merkle_root L)
      = some true := by
  have hguard : ¬(L = [] ∨ L.length ≤ i) := by
    rintro (rfl | hle)
    · simp at h2
    · omega
  obtain ⟨P, D, heq, hlen, hrec⟩ :=
    proofAux_sound (padEven L).length (padEven L) i [] []
      (le_refl _) (padEven_length_even L) (le_trans h2 (length_le_padEven L))
      (lt_of_lt_of_le hi (length_le_padEven L))
  simp only [List.nil_append] at heq
  have hroot : merkle_root L = rootAux (padEven L).length (padEven L) := by
    have hL1 : ¬ L.length = 1 := by omega
    have e1 : L.length = (L.length - 1) + 1 := by omega
    have e2 : (padEven L).length = ((padEven L).length - 1) + 1 := by
      have := length_le_padEven L
      omega
    have s1 : rootAux L.length L
        = rootAux (L.length - 1) (combinePairs (padEven L)) := by
      rw [e1]
      exact rootAux_step _ L h2
    have s2 : rootAux (padEven L).length (padEven L)
        = rootAux ((padEven L).length - 1) (combinePairs (padEven L)) := by
      rw [e2]
      rw [rootAux_step _ (padEven L) (le_trans h2 (length_le_padEven L)),
          padEven_eq_self (padEven L) (padEven_length_even L)]
      congr 1
    have hu : (combinePairs (padEven L)).length ≤ L.length - 1 := by
      rw [combinePairs_length]
      have := padEven_length_le L
      omega
    have hu' : (combinePairs (padEven L)).length ≤ (padEven L).length - 1 := by
      rw [combinePairs_length]
      have := length_le_padEven L
      omega
    have : merkle_root L = rootAux L.length L := by
      simp only [merkle_root]
      rw [if_neg (by rintro rfl; simp at h2), if_neg hL1]
    rw [this, s1, s2]
    exact rootAux_fuel_irrel _ _ _ hu hu'
  simp only [merkle_proof, if_neg hguard, heq]
  have hdirs :
      ([("valid", Json.bool true),
        ("leaf_hash", Json.str (L.getD i "")),
        ("path", Json.arr (P.map .str)),
        ("directions", Json.arr (D.map .str)),
        ("root", if ([rootAux (padEven L).length (padEven L)] : List String).isEmpty
                 then Json.null
                 else .str (([rootAux (padEven L).length (padEven L)] : List String).headD ""))]
        : Dict).lookup "directions" = some (.arr (D.map .str)) := by
    simp [List.lookup]
  rw [padEven_getD L i hi] at hrec
  have happ := verifyLoop_eq _ D hdirs P 0 (L.getD i "") (by omega)
  simp only [List.drop_zero] at happ
  simp [verify_merkle_proof, List.lookup, jsonTruthy, hroot]
  simp at happ hrec
  rw [happ]
  simp [hrec]

end GreenProof
